import Mathlib

/-!
Shallow embedding of the pixel-processing core of the convec-api repository:
the background-removal algorithms of `src/canvas/background-removal.js` and the
vectorization engine of `src/vectorization/vectorizer.js`, together with
theorems settling the specification claims about them.

Modelling conventions:
* An RGBA buffer (`ImageData.data`, a flat `Uint8ClampedArray` of size
  `width*height*4` in row-major RGBA order) is modelled as an `Image`: the
  dimensions plus a function from integer coordinates to the `Pixel` stored
  there.  The JS loops `for (i = 0; i < data.length; i += 4)` visit exactly the
  in-bounds pixels, so the per-pixel transformations are modelled pointwise,
  guarded by `inGrid`.
* JS double arithmetic is modelled exactly: computations that stay rational
  (luminance, HSL conversion) use `ℚ`; `Math.sqrt` and `Math.acos` are modelled
  by `Real.sqrt` / `Real.arccos` over `ℝ`.
* The store of a fractional alpha into a `Uint8ClampedArray` slot (which clamps
  to [0,255] and rounds to nearest, ties to even) is modelled by `jsClampByte`.
* The canvas-manager lookup `canvasManager.getCanvas(canvasId)` (which throws
  for an unknown/invalid canvas) is modelled by handing the operations an
  `Option Image`: `none` stands for an id whose lookup fails.
-/

namespace Convec

/-- One RGBA sample group of the image data array: the bytes `data[i]`,
`data[i+1]`, `data[i+2]`, `data[i+3]` (red, green, blue, alpha). -/
structure Pixel where
  r : ℤ
  g : ℤ
  b : ℤ
  a : ℤ
deriving DecidableEq

/-- A decoded pixel buffer: `canvas.width`, `canvas.height` and the pixel
stored at each in-bounds coordinate (row-major RGBA buffer, modelled
pointwise). -/
structure Image where
  width : ℕ
  height : ℕ
  px : ℤ → ℤ → Pixel

/-- Coordinate (x, y) lies inside a width×height buffer; this is the bounds
check `x < 0 || x >= width || y < 0 || y >= height` (negated). -/
def inGrid (w h : ℕ) (c : ℤ × ℤ) : Prop :=
  0 ≤ c.1 ∧ c.1 < (w : ℤ) ∧ 0 ≤ c.2 ∧ c.2 < (h : ℤ)

instance (w h : ℕ) (c : ℤ × ℤ) : Decidable (inGrid w h c) :=
  decidable_of_iff (0 ≤ c.1 ∧ c.1 < (w : ℤ) ∧ 0 ≤ c.2 ∧ c.2 < (h : ℤ)) Iff.rfl

/-- The write `data[i + 3] = 0` on one RGBA group: alpha cleared, RGB kept. -/
def zeroAlpha (p : Pixel) : Pixel :=
  { p with a := 0 }

/-- BackgroundRemoval.removeByColor: per pixel, if every channel's absolute
difference from the target color is strictly below the tolerance, set alpha
to 0. -/
def removeByColor (img : Image) (targetColor : ℤ × ℤ × ℤ) (tolerance : ℤ) : Image :=
  { img with px := fun x y =>
      let p := img.px x y
      if inGrid img.width img.height (x, y) ∧ |p.r - targetColor.1| < tolerance ∧
          |p.g - targetColor.2.1| < tolerance ∧ |p.b - targetColor.2.2| < tolerance then
        zeroAlpha p
      else p }

/-- Output record of `rgbToHsl`: `{ h, s, l }`. -/
structure HSL where
  h : ℚ
  s : ℚ
  l : ℚ

/-- BackgroundRemoval.rgbToHsl: hue/saturation/lightness of an RGB triple whose
channels have already been divided by 255 (exact rational model of the JS
double computation).  The JS `switch (max)` tests `case r` first, then
`case g`, then `case b`, which the nested conditional reproduces. -/
def rgbToHsl (r g b : ℚ) : HSL :=
  let mx := max r (max g b)
  let mn := min r (min g b)
  let l := (mx + mn) / 2
  if mx = mn then { h := 0, s := 0, l := l }
  else
    let d := mx - mn
    let s := if l > 1 / 2 then d / (2 - mx - mn) else d / (mx + mn)
    let h :=
      if mx = r then (g - b) / d + (if g < b then 6 else 0)
      else if mx = g then (b - r) / d + 2
      else (r - g) / d + 4
    { h := h / 6, s := s, l := l }

/-- BackgroundRemoval.chromaKey: a pixel becomes fully transparent when
`Math.abs(hsl.h * 360 - targetHue) < hueTolerance && hsl.s > saturationMin`
(plain absolute hue difference, no circular wrap-around). -/
def chromaKey (img : Image) (targetHue hueTolerance saturationMin : ℚ) : Image :=
  { img with px := fun x y =>
      let p := img.px x y
      let hsl := rgbToHsl ((p.r : ℚ) / 255) ((p.g : ℚ) / 255) ((p.b : ℚ) / 255)
      if inGrid img.width img.height (x, y) ∧
          |hsl.h * 360 - targetHue| < hueTolerance ∧ hsl.s > saturationMin then
        zeroAlpha p
      else p }

/-- Squared Euclidean RGB distance of a pixel from a target color: the operand
of `Math.sqrt` in BackgroundRemoval.fuzzyRemoval. -/
def dist2 (p : Pixel) (t : ℤ × ℤ × ℤ) : ℤ :=
  (p.r - t.1) ^ 2 + (p.g - t.2.1) ^ 2 + (p.b - t.2.2) ^ 2

/-- Semantics of storing a real number into a `Uint8ClampedArray` slot: clamp
to [0, 255] and round to the nearest integer, ties to even. -/
noncomputable def jsClampByte (x : ℝ) : ℤ :=
  if x ≤ 0 then 0
  else if 255 ≤ x then 255
  else if Int.fract x < 1 / 2 then ⌊x⌋
  else if 1 / 2 < Int.fract x then ⌊x⌋ + 1
  else if Even ⌊x⌋ then ⌊x⌋ else ⌊x⌋ + 1

open Classical in
/-- BackgroundRemoval.fuzzyRemoval: per pixel, compute the Euclidean RGB
distance to the target; when `distance < tolerance`, store
`Math.max(0, (distance / tolerance) * 255)` into the alpha slot (clamped-array
store modelled by `jsClampByte`); otherwise the pixel is untouched. -/
noncomputable def fuzzyRemoval (img : Image) (targetColor : ℤ × ℤ × ℤ) (tolerance : ℤ) : Image :=
  { img with px := fun x y =>
      let p := img.px x y
      let distance : ℝ := Real.sqrt ((dist2 p targetColor : ℤ) : ℝ)
      if inGrid img.width img.height (x, y) ∧ distance < (tolerance : ℝ) then
        { p with a := jsClampByte (max 0 (distance / (tolerance : ℝ) * 255)) }
      else p }

/-- RGB of a pixel matches the flood-fill target within tolerance:
`Math.abs(r - target[0]) <= tolerance && ...` for all three channels. -/
def matchesAt (target : ℤ × ℤ × ℤ) (tol : ℤ) (data : ℤ → ℤ → Pixel) (c : ℤ × ℤ) : Prop :=
  |(data c.1 c.2).r - target.1| ≤ tol ∧ |(data c.1 c.2).g - target.2.1| ≤ tol ∧
    |(data c.1 c.2).b - target.2.2| ≤ tol

instance (target : ℤ × ℤ × ℤ) (tol : ℤ) (data : ℤ → ℤ → Pixel) (c : ℤ × ℤ) :
    Decidable (matchesAt target tol data c) :=
  decidable_of_iff (|(data c.1 c.2).r - target.1| ≤ tol ∧ |(data c.1 c.2).g - target.2.1| ≤ tol ∧
    |(data c.1 c.2).b - target.2.2| ≤ tol) Iff.rfl

/-- The write of `data[index + 3] = 0` at one coordinate of the buffer. -/
def updateAlpha (data : ℤ → ℤ → Pixel) (c : ℤ × ℤ) : ℤ → ℤ → Pixel :=
  fun a b => if a = c.1 ∧ b = c.2 then zeroAlpha (data a b) else data a b

/-- The worklist loop of BackgroundRemoval.floodFill.  The JS loop pops the top
of `stack` (modelled as the list head), skips coordinates that are already
visited or out of bounds, otherwise marks the coordinate visited and — when its
RGB matches the seed color within tolerance — clears its alpha and pushes its
four 4-neighbors.  `fuel` bounds the number of iterations; `floodFill` supplies
enough fuel that it is never exhausted (see `floodLoop_spec`). -/
def floodLoop (w h : ℕ) (target : ℤ × ℤ × ℤ) (tol : ℤ) :
    ℕ → List (ℤ × ℤ) → Finset (ℤ × ℤ) → (ℤ → ℤ → Pixel) →
      ((ℤ → ℤ → Pixel) × Finset (ℤ × ℤ))
  | _, [], visited, data => (data, visited)
  | 0, _ :: _, visited, data => (data, visited)
  | fuel + 1, c :: stack, visited, data =>
      if c ∈ visited ∨ ¬ inGrid w h c then
        floodLoop w h target tol fuel stack visited data
      else if matchesAt target tol data c then
        floodLoop w h target tol fuel
          ((c.1, c.2 - 1) :: (c.1, c.2 + 1) :: (c.1 - 1, c.2) :: (c.1 + 1, c.2) :: stack)
          (insert c visited) (updateAlpha data c)
      else
        floodLoop w h target tol fuel stack (insert c visited) data

/-- BackgroundRemoval.floodFill: read the seed pixel's RGB as the target color
and run the worklist loop from the seed.  The fuel `4*w*h + 1` dominates the
loop's decreasing measure, so the loop always drains its stack. -/
def floodFill (img : Image) (startX startY : ℤ) (tolerance : ℤ) : Image :=
  let s := img.px startX startY
  { img with px := (floodLoop img.width img.height (s.r, s.g, s.b) tolerance
      (4 * img.width * img.height + 1) [(startX, startY)] ∅ img.px).1 }

/-- The four 4-neighbors of a coordinate (the coordinates floodFill pushes). -/
def neighbors (c : ℤ × ℤ) : List (ℤ × ℤ) :=
  [(c.1 + 1, c.2), (c.1 - 1, c.2), (c.1, c.2 + 1), (c.1, c.2 - 1)]

/-- The 4-connected background region grown by floodFill: the set of in-bounds
coordinates reachable from the seed through pixels whose RGB is within
tolerance of the target (the seed's color).  This is the "connected region
containing the seed, uniform within tolerance" of the specification. -/
inductive Reach (w h : ℕ) (target : ℤ × ℤ × ℤ) (tol : ℤ) (data : ℤ → ℤ → Pixel)
    (seed : ℤ × ℤ) : ℤ × ℤ → Prop where
  | base : inGrid w h seed → matchesAt target tol data seed →
      Reach w h target tol data seed seed
  | step : ∀ c d, Reach w h target tol data seed c → d ∈ neighbors c →
      inGrid w h d → matchesAt target tol data d → Reach w h target tol data seed d

/-- Pass 1 of BackgroundRemoval.edgePreserving: an in-bounds pixel is a
background candidate when every channel's absolute difference from the target
color is strictly below the tolerance (the `backgroundPixels` set). -/
def isCandidate (img : Image) (targetColor : ℤ × ℤ × ℤ) (tolerance : ℤ) (c : ℤ × ℤ) : Prop :=
  inGrid img.width img.height c ∧ |(img.px c.1 c.2).r - targetColor.1| < tolerance ∧
    |(img.px c.1 c.2).g - targetColor.2.1| < tolerance ∧
    |(img.px c.1 c.2).b - targetColor.2.2| < tolerance

instance (img : Image) (t : ℤ × ℤ × ℤ) (tol : ℤ) (c : ℤ × ℤ) :
    Decidable (isCandidate img t tol c) :=
  decidable_of_iff (inGrid img.width img.height c ∧ |(img.px c.1 c.2).r - t.1| < tol ∧
    |(img.px c.1 c.2).g - t.2.1| < tol ∧ |(img.px c.1 c.2).b - t.2.2| < tol) Iff.rfl

/-- The eight (dx, dy) neighbor offsets visited by edgePreserving's pass 2, in
loop order (`dy` outer from -1 to 1, `dx` inner, skipping (0,0)). -/
def neighborOffsets : List (ℤ × ℤ) :=
  [(-1, -1), (0, -1), (1, -1), (-1, 0), (1, 0), (-1, 1), (0, 1), (1, 1)]

/-- Pass 2 neighbor count: how many of the 8 neighbors of (x, y) are background
candidates. -/
def neighborCount (img : Image) (targetColor : ℤ × ℤ × ℤ) (tolerance : ℤ) (x y : ℤ) : ℕ :=
  (neighborOffsets.filter fun d =>
    decide (isCandidate img targetColor tolerance (x + d.1, y + d.2))).length

/-- BackgroundRemoval.edgePreserving: pass 1 collects the candidate set from
the original RGB data; pass 2 visits interior coordinates (`1 ≤ x ≤ width-2`,
`1 ≤ y ≤ height-2`) and, for candidates, stores
`Math.floor((neighborCount / 8) * 255)` — exactly `255*n/8` rounded down —
when fewer than 8 neighbors are candidates, and 0 otherwise.  Pass 2 writes
only alpha, so the candidate set (computed from RGB) is unaffected by the
mutation order. -/
def edgePreserving (img : Image) (targetColor : ℤ × ℤ × ℤ) (tolerance : ℤ) : Image :=
  { img with px := fun x y =>
      let p := img.px x y
      if 1 ≤ x ∧ x < (img.width : ℤ) - 1 ∧ 1 ≤ y ∧ y < (img.height : ℤ) - 1 ∧
          isCandidate img targetColor tolerance (x, y) then
        let n := neighborCount img targetColor tolerance x y
        if n < 8 then { p with a := ((255 * n / 8 : ℕ) : ℤ) }
        else { p with a := 0 }
      else p }

/-- The options record consumed by the removal methods (fields read by
`batchRemoval` from its `options` argument; the defaults are the JS
default-parameter values that apply when a field is absent). -/
structure ROptions where
  targetColor : ℤ × ℤ × ℤ := (255, 255, 255)
  tolerance : ℤ := 10
  targetHue : ℚ := 120
  hueTolerance : ℚ := 15
  saturationMin : ℚ := 3 / 10
  startX : ℤ := 0
  startY : ℤ := 0

/-- Per-item result of batch removal: `{ success: true, result }` or
`{ success: false, error }` (the `canvasId` echo field is omitted; items are
identified by their position). -/
structure BatchResult where
  success : Bool
  result : Option Image
  error : Option String

/-- Fallback result used only to state positional lookups. -/
def emptyBatchResult : BatchResult :=
  { success := false, result := none, error := none }

/-- The method names recognized by batchRemoval's `switch`. -/
def knownMethodList : List String :=
  [ "color", "chroma-key", "fuzzy", "flood-fill", "edge-preserving" ]

/-- Method name reaches one of the five switch cases (not the default throw). -/
def knownMethod (m : String) : Prop :=
  m ∈ knownMethodList

instance (m : String) : Decidable (knownMethod m) :=
  decidable_of_iff (m ∈ knownMethodList) Iff.rfl

/-- A successful per-item batch record `{ success: true, result }`. -/
def okItem (img : Image) : BatchResult :=
  { success := true, result := some img, error := none }

/-- A failed per-item batch record `{ success: false, error }`. -/
def failItem (msg : String) : BatchResult :=
  { success := false, result := none, error := some msg }

/-- The body of one iteration of BackgroundRemoval.batchRemoval: dispatch on
the method name inside a try/catch.  An unknown method name throws before the
canvas is touched; a known method first resolves the canvas id (modelled by the
`Option Image`), which throws — caught as a failure — when the lookup fails. -/
noncomputable def batchItem (method : String) (options : ROptions) (item : Option Image) :
    BatchResult :=
  match method with
  | "color" =>
    match item with
    | some img => okItem (removeByColor img options.targetColor options.tolerance)
    | none => failItem ("Canvas not found")
  | "chroma-key" =>
    match item with
    | some img => okItem (chromaKey img options.targetHue options.hueTolerance
        options.saturationMin)
    | none => failItem ("Canvas not found")
  | "fuzzy" =>
    match item with
    | some img => okItem (fuzzyRemoval img options.targetColor options.tolerance)
    | none => failItem ("Canvas not found")
  | "flood-fill" =>
    match item with
    | some img => okItem (floodFill img options.startX options.startY options.tolerance)
    | none => failItem ("Canvas not found")
  | "edge-preserving" =>
    match item with
    | some img => okItem (edgePreserving img options.targetColor options.tolerance)
    | none => failItem ("Canvas not found")
  | _ => failItem ("Unknown method: " ++ method)

/-- BackgroundRemoval.batchRemoval: process the ordered item list sequentially,
each item independently through the per-item try/catch and push its result. -/
noncomputable def batchRemoval (items : List (Option Image)) (method : String)
    (options : ROptions) : List BatchResult :=
  items.map (batchItem method options)

/-- Binary bitmap produced by Vectorizer.createBitmap: a width×height array of
0/1 entries, modelled pointwise (entries outside the grid are 0, matching the
`undefined === 1` reads being false). -/
structure Bitmap where
  width : ℕ
  height : ℕ
  data : ℤ → ℤ → ℕ

/-- Grayscale luminance `0.299*r + 0.587*g + 0.114*b` of a pixel (exact
rational model of the JS double computation). -/
def luminance (p : Pixel) : ℚ :=
  ((299 * p.r + 587 * p.g + 114 * p.b : ℤ) : ℚ) / 1000

/-- Vectorizer.createBitmap: per pixel,
`bitmap[pixelIndex] = (alpha < 128 || gray > threshold) ? 0 : 1`. -/
def createBitmap (img : Image) (threshold : ℚ) : Bitmap :=
  { width := img.width, height := img.height,
    data := fun x y =>
      if inGrid img.width img.height (x, y) then
        if (img.px x y).a < 128 ∨ luminance (img.px x y) > threshold then 0 else 1
      else 0 }

/-- One point of a traced path.  Traced points carry integer pixel coordinates
and no `smooth` mark; smoothing may replace a point by a rational centroid
marked `smooth := true`. -/
structure Pt where
  x : ℚ
  y : ℚ
  smooth : Bool

instance : Inhabited Pt :=
  ⟨⟨0, 0, false⟩⟩

/-- The four cardinal directions of the tracer, in rotation order:
right, down, left, up. -/
def directionsList : List (ℤ × ℤ) :=
  [(1, 0), (0, 1), (-1, 0), (0, -1)]

/-- Vectorizer.isValidPixel: in bounds and the bitmap entry is 1. -/
def isValidPixel (bmp : Bitmap) (x y : ℤ) : Bool :=
  decide (0 ≤ x ∧ x < (bmp.width : ℤ) ∧ 0 ≤ y ∧ y < (bmp.height : ℤ)) &&
    decide (bmp.data x y = 1)

/-- The direction search of Vectorizer.traceContour: test the four cardinal
directions in rotation order starting from the current heading and return the
first in-bounds foreground neighbor together with the new heading. -/
def findNext (bmp : Bitmap) (x y : ℤ) (dir : ℕ) : Option (ℤ × ℤ × ℕ) :=
  (List.range 4).findSome? fun i =>
    let newDir := (dir + i) % 4
    let d := directionsList.getD newDir (0, 0)
    let nx := x + d.1
    let ny := y + d.2
    if isValidPixel bmp nx ny then some (nx, ny, newDir) else none

/-- The do-while loop of Vectorizer.traceContour.  Each iteration marks the
current cell visited (guarded by `0 <= index < width*height`), appends the
current point, then either stops (no foreground neighbor found; the path grew
beyond `width*height`; or the walk returned to the start pixel) or advances.
`fuel` bounds the iteration count; `traceContour` supplies `width*height + 2`,
which is never exhausted (`traceGo_fuel_stable`). -/
def traceGo (bmp : Bitmap) (startX startY : ℤ) :
    ℕ → ℤ → ℤ → ℕ → List Pt → Finset ℤ → (List Pt × Finset ℤ)
  | 0, _, _, _, path, visited => (path, visited)
  | fuel + 1, x, y, dir, path, visited =>
      let idx := y * (bmp.width : ℤ) + x
      let visited' := if 0 ≤ idx ∧ idx < ((bmp.width * bmp.height : ℕ) : ℤ) then
        insert idx visited else visited
      let path' := path ++ [⟨(x : ℚ), (y : ℚ), false⟩]
      match findNext bmp x y dir with
      | none => (path', visited')
      | some (nx, ny, ndir) =>
          if path'.length > bmp.width * bmp.height then (path', visited')
          else if nx = startX ∧ ny = startY then (path', visited')
          else traceGo bmp startX startY fuel nx ny ndir path' visited'

/-- Vectorizer.traceContour: run the boundary walk from the start pixel with
initial heading "right"; a resulting path of 2 or fewer points is degenerate
and reported as `none` (the JS `null`).  Also returns the updated visited
array. -/
def traceContour (bmp : Bitmap) (startX startY : ℤ) (visited : Finset ℤ) :
    Option (List Pt) × Finset ℤ :=
  let r := traceGo bmp startX startY (bmp.width * bmp.height + 2) startX startY 0 [] visited
  (if r.1.length > 2 then some r.1 else none, r.2)

/-- Vectorizer.shouldSmooth: the corner at `curr` is smoothed when both edge
vectors are nonzero and the angle between them, `acos(dot/(len1*len2))`, is
below `π - tolerance`. -/
def shouldSmooth (prev curr next : Pt) (tolerance : ℝ) : Prop :=
  let dx1 := curr.x - prev.x
  let dy1 := curr.y - prev.y
  let dx2 := next.x - curr.x
  let dy2 := next.y - curr.y
  let dot : ℝ := ((dx1 * dx2 + dy1 * dy2 : ℚ) : ℝ)
  let len1 : ℝ := Real.sqrt ((dx1 * dx1 + dy1 * dy1 : ℚ) : ℝ)
  let len2 : ℝ := Real.sqrt ((dx2 * dx2 + dy2 * dy2 : ℚ) : ℝ)
  ¬ (len1 = 0 ∨ len2 = 0) ∧ Real.arccos (dot / (len1 * len2)) < Real.pi - tolerance

open Classical in
/-- Vectorizer.smoothPath: when `optcurve` is set and the path has at least 3
points, replace each point that `shouldSmooth` flags by the centroid of itself
and its two cyclic neighbors (marked `smooth`); other points are kept.  The JS
signature receives the whole options object and reads `optcurve` and
`opttolerance` (with `opttolerance || 1` falsy fallback). -/
noncomputable def smoothPath (optcurve : Bool) (opttolerance : ℝ) (path : List Pt) : List Pt :=
  if optcurve = false ∨ path.length < 3 then path
  else
    let tolerance := if opttolerance = 0 then 1 else opttolerance
    (List.range path.length).map fun i =>
      let prev := path.getD ((i + path.length - 1) % path.length) default
      let curr := path.getD i default
      let next := path.getD ((i + 1) % path.length) default
      if shouldSmooth prev curr next tolerance then
        ⟨(prev.x + curr.x + next.x) / 3, (prev.y + curr.y + next.y) / 3, true⟩
      else curr

/-- The row-major scan order of Vectorizer.tracePaths: y outer (top to
bottom), x inner (left to right). -/
def scanCoords (w h : ℕ) : List (ℤ × ℤ) :=
  (List.range h).flatMap fun y => (List.range w).map fun x => ((x : ℤ), (y : ℤ))

/-- The scan loop of Vectorizer.tracePaths: at each unvisited foreground cell,
trace a contour (threading the shared visited array), and keep its smoothed
form when the traced point count reaches `turdsize`.  The JS signature receives
the whole options object and reads `turdsize`, `optcurve`, `opttolerance`. -/
noncomputable def tracePathsGo (bmp : Bitmap) (turdsize : ℤ) (optcurve : Bool)
    (opttolerance : ℝ) : List (ℤ × ℤ) → Finset ℤ → List (List Pt)
  | [], _ => []
  | (x, y) :: rest, visited =>
      if bmp.data x y = 1 ∧ (y * (bmp.width : ℤ) + x) ∉ visited then
        match traceContour bmp x y visited with
        | (some path, visited') =>
            if (path.length : ℤ) ≥ turdsize then
              smoothPath optcurve opttolerance path ::
                tracePathsGo bmp turdsize optcurve opttolerance rest visited'
            else tracePathsGo bmp turdsize optcurve opttolerance rest visited'
        | (none, visited') => tracePathsGo bmp turdsize optcurve opttolerance rest visited'
      else tracePathsGo bmp turdsize optcurve opttolerance rest visited

/-- Vectorizer.tracePaths: scan the whole bitmap in row-major order with an
initially clear visited array. -/
noncomputable def tracePaths (bmp : Bitmap) (w h : ℕ) (turdsize : ℤ) (optcurve : Bool)
    (opttolerance : ℝ) : List (List Pt) :=
  tracePathsGo bmp turdsize optcurve opttolerance (scanCoords w h) ∅

/-- Vectorization options (`defaultOptions` merged with the caller's options).
`threshold`, `scale` and `fillColor` have no default in `defaultOptions` and
are read through JS falsy fallbacks (`|| 128`, `|| 1`, `|| '#000000'`), so the
absent-field case is modelled by the falsy values 0 / 0 / "". -/
structure VOptions where
  turdsize : ℤ := 5
  turnpolicy : String := "minority"
  alphamax : ℚ := 1
  opttolerance : ℝ := 1
  optcurve : Bool := true
  threshold : ℚ := 0
  scale : ℚ := 0
  fillColor : String := ""

/-- Structured content of the SVG document emitted by Vectorizer.generateSVG:
the `width`/`height` attributes, the `viewBox` dimensions, the scaled
coordinates of each emitted path (paths with fewer than 2 points are skipped),
and the fill color. -/
structure SVGDoc where
  width : ℚ
  height : ℚ
  viewBoxWidth : ℚ
  viewBoxHeight : ℚ
  paths : List (List (ℚ × ℚ))
  fill : String

/-- Vectorizer.generateSVG: `scale = options.scale || 1`; the document's
width/height/viewBox are `width*scale` × `height*scale`; every path with at
least 2 points is emitted with each coordinate multiplied by `scale`; fill is
`options.fillColor || '#000000'`. -/
def generateSVG (paths : List (List Pt)) (width height : ℕ) (options : VOptions) : SVGDoc :=
  let scale := if options.scale = 0 then 1 else options.scale
  let scaledWidth := (width : ℚ) * scale
  let scaledHeight := (height : ℚ) * scale
  { width := scaledWidth, height := scaledHeight,
    viewBoxWidth := scaledWidth, viewBoxHeight := scaledHeight,
    paths := (paths.filter fun p => decide (2 ≤ p.length)).map fun p =>
      p.map fun q => (q.x * scale, q.y * scale),
    fill := if options.fillColor = "" then "#000000" else options.fillColor }

/-- Vectorizer.vectorizeCanvas: binarize with `opts.threshold || 128`, trace,
and emit the SVG document. -/
noncomputable def vectorizeCanvas (img : Image) (options : VOptions) : SVGDoc :=
  let bitmap := createBitmap img (if options.threshold = 0 then 128 else options.threshold)
  let paths := tracePaths bitmap img.width img.height options.turdsize options.optcurve
    options.opttolerance
  generateSVG paths img.width img.height options

/-- Vectorizer.generatePathData: same pipeline, emitting only the scaled path
coordinates (the bare `M`/`L`/`Z` command data, without the svg wrapper). -/
noncomputable def generatePathData (img : Image) (options : VOptions) : List (List (ℚ × ℚ)) :=
  let bitmap := createBitmap img (if options.threshold = 0 then 128 else options.threshold)
  let paths := tracePaths bitmap img.width img.height options.turdsize options.optcurve
    options.opttolerance
  let scale := if options.scale = 0 then 1 else options.scale
  (paths.filter fun p => decide (2 ≤ p.length)).map fun p =>
    p.map fun q => (q.x * scale, q.y * scale)

/-- Circular (wrap-around) distance in degrees between two hue angles, as the
specification's words describe the chroma-key hue test ("circular distance,
degrees"); written for comparison against the code's plain absolute
difference. -/
def specCircularHueDist (a b : ℚ) : ℚ :=
  min |a - b| (360 - |a - b|)

/-- A 1×1 all-black fully opaque test buffer. -/
def blackImg : Image :=
  { width := 1, height := 1, px := fun _ _ => ⟨0, 0, 0, 255⟩ }

/-- A 1×1 pure-green fully opaque test buffer (hue 120°, saturation 1). -/
def greenImg : Image :=
  { width := 1, height := 1, px := fun _ _ => ⟨0, 255, 0, 255⟩ }

/-- A 2×1 uniform mid-gray buffer for the flood-fill witness. -/
def grayImg : Image :=
  { width := 2, height := 1, px := fun _ _ => ⟨7, 7, 7, 255⟩ }

/-- A 1×1 buffer holding an almost-pure red pixel whose hue, 6096/17 ≈ 358.6°,
is circularly within 1.5° of hue 0 but 358.6 away in plain absolute
difference. -/
def redWrapImg : Image :=
  { width := 1, height := 1, px := fun _ _ => ⟨255, 0, 6, 200⟩ }

/-- A 1×1 near-white buffer (squared distance 75 from pure white). -/
def nearWhiteImg : Image :=
  { width := 1, height := 1, px := fun _ _ => ⟨250, 250, 250, 255⟩ }

/-- A 7×3 buffer over a white background with one isolated black pixel at
(1, 1) (0 candidate neighbors) and a black 3×3 block on columns 3–5 with its
(3, 0) corner knocked out, so that its center (4, 1) has exactly 7 candidate
neighbors when the removal target is black. -/
def edgeCaseImg : Image :=
  { width := 7, height := 3, px := fun x y =>
      if (x, y) = ((1 : ℤ), (1 : ℤ)) ∨
          ((3 ≤ x ∧ x ≤ 5 ∧ 0 ≤ y ∧ y ≤ 2) ∧ (x, y) ≠ ((3 : ℤ), (0 : ℤ))) then
        ⟨0, 0, 0, 255⟩
      else ⟨255, 255, 255, 255⟩ }

/-- A 1×1 all-zero bitmap (no foreground). -/
def emptyBitmap : Bitmap :=
  { width := 1, height := 1, data := fun _ _ => 0 }

/-- Item list for the batch witness: a valid buffer followed by a failing
canvas lookup. -/
def demoItems : List (Option Image) :=
  [some blackImg, none]

/-- Loop invariant of the flood-fill worklist (`floodLoop`), relating the
current stack, visited set and buffer to the original buffer `data₀` and the
reachable region of the seed. -/
structure FloodInv (w h : ℕ) (target : ℤ × ℤ × ℤ) (tol : ℤ) (seed : ℤ × ℤ)
    (data₀ : ℤ → ℤ → Pixel) (stack : List (ℤ × ℤ)) (visited : Finset (ℤ × ℤ))
    (data : ℤ → ℤ → Pixel) : Prop where
  vis_grid : ∀ c ∈ visited, inGrid w h c
  changes : ∀ c : ℤ × ℤ, data c.1 c.2 = data₀ c.1 c.2 ∨
    (Reach w h target tol data₀ seed c ∧ data c.1 c.2 = zeroAlpha (data₀ c.1 c.2))
  stack_ok : ∀ c ∈ stack, c = seed ∨ ∃ d, Reach w h target tol data₀ seed d ∧ c ∈ neighbors d
  vis_ok : ∀ c ∈ visited, matchesAt target tol data₀ c →
    data c.1 c.2 = zeroAlpha (data₀ c.1 c.2) ∧
      ∀ n ∈ neighbors c, inGrid w h n → n ∈ visited ∨ n ∈ stack
  seed_ok : inGrid w h seed → seed ∈ visited ∨ seed ∈ stack

/-- The in-bounds coordinates as a finite set (for counting visited cells). -/
def gridFinset (w h : ℕ) : Finset (ℤ × ℤ) :=
  Finset.Icc (0 : ℤ) ((w : ℤ) - 1) ×ˢ Finset.Icc (0 : ℤ) ((h : ℤ) - 1)

lemma mem_gridFinset {w h : ℕ} {c : ℤ × ℤ} : c ∈ gridFinset w h ↔ inGrid w h c := by
  cases c with
  | mk x y =>
    simp only [gridFinset, Finset.mem_product, Finset.mem_Icc, inGrid]
    omega

lemma card_gridFinset (w h : ℕ) : (gridFinset w h).card = w * h := by
  rw [gridFinset, Finset.card_product]
  rw [Int.card_Icc, Int.card_Icc]
  have hw : ((w : ℤ) - 1 + 1 - 0).toNat = w := by omega
  have hh : ((h : ℤ) - 1 + 1 - 0).toNat = h := by omega
  rw [hw, hh]

lemma matchesAt_congr {target : ℤ × ℤ × ℤ} {tol : ℤ} {d₁ d₂ : ℤ → ℤ → Pixel} {c : ℤ × ℤ}
    (hr : (d₁ c.1 c.2).r = (d₂ c.1 c.2).r) (hg : (d₁ c.1 c.2).g = (d₂ c.1 c.2).g)
    (hb : (d₁ c.1 c.2).b = (d₂ c.1 c.2).b) :
    matchesAt target tol d₁ c ↔ matchesAt target tol d₂ c := by
  unfold matchesAt
  rw [hr, hg, hb]

lemma changes_rgb {w h : ℕ} {target : ℤ × ℤ × ℤ} {tol : ℤ} {seed : ℤ × ℤ}
    {data₀ data : ℤ → ℤ → Pixel}
    (hch : ∀ c : ℤ × ℤ, data c.1 c.2 = data₀ c.1 c.2 ∨
      (Reach w h target tol data₀ seed c ∧ data c.1 c.2 = zeroAlpha (data₀ c.1 c.2)))
    (c : ℤ × ℤ) :
    (data c.1 c.2).r = (data₀ c.1 c.2).r ∧ (data c.1 c.2).g = (data₀ c.1 c.2).g ∧
      (data c.1 c.2).b = (data₀ c.1 c.2).b := by
  rcases hch c with he | ⟨_, he⟩ <;> rw [he] <;> exact ⟨rfl, rfl, rfl⟩

lemma Reach.grid {w h : ℕ} {target : ℤ × ℤ × ℤ} {tol : ℤ} {data : ℤ → ℤ → Pixel}
    {seed c : ℤ × ℤ} (hr : Reach w h target tol data seed c) : inGrid w h c := by
  cases hr <;> assumption

lemma Reach.matched {w h : ℕ} {target : ℤ × ℤ × ℤ} {tol : ℤ} {data : ℤ → ℤ → Pixel}
    {seed c : ℤ × ℤ} (hr : Reach w h target tol data seed c) : matchesAt target tol data c := by
  cases hr <;> assumption

lemma FloodInv.skip {w h : ℕ} {target : ℤ × ℤ × ℤ} {tol : ℤ} {seed : ℤ × ℤ}
    {data₀ data : ℤ → ℤ → Pixel} {c : ℤ × ℤ} {rest : List (ℤ × ℤ)} {visited : Finset (ℤ × ℤ)}
    (hI : FloodInv w h target tol seed data₀ (c :: rest) visited data)
    (h1 : c ∈ visited ∨ ¬ inGrid w h c) :
    FloodInv w h target tol seed data₀ rest visited data := by
  refine ⟨hI.vis_grid, hI.changes, fun e he => hI.stack_ok e (List.mem_cons_of_mem _ he), ?_, ?_⟩
  · intro e he hm
    obtain ⟨hz, hn⟩ := hI.vis_ok e he hm
    refine ⟨hz, fun n hn' hgn => ?_⟩
    rcases hn n hn' hgn with hv | hs
    · exact Or.inl hv
    · rcases List.mem_cons.mp hs with rfl | hs'
      · rcases h1 with hcv | hcg
        · exact Or.inl hcv
        · exact absurd hgn hcg
      · exact Or.inr hs'
  · intro hgs
    rcases hI.seed_ok hgs with hv | hs
    · exact Or.inl hv
    · rcases List.mem_cons.mp hs with rfl | hs'
      · rcases h1 with hcv | hcg
        · exact Or.inl hcv
        · exact absurd hgs hcg
      · exact Or.inr hs'

lemma FloodInv.nomatch {w h : ℕ} {target : ℤ × ℤ × ℤ} {tol : ℤ} {seed : ℤ × ℤ}
    {data₀ data : ℤ → ℤ → Pixel} {c : ℤ × ℤ} {rest : List (ℤ × ℤ)} {visited : Finset (ℤ × ℤ)}
    (hI : FloodInv w h target tol seed data₀ (c :: rest) visited data)
    (hg : inGrid w h c) (hm : ¬ matchesAt target tol data c) :
    FloodInv w h target tol seed data₀ rest (insert c visited) data := by
  have hm₀ : ¬ matchesAt target tol data₀ c := by
    have hrgb := changes_rgb hI.changes c
    intro hmm
    exact hm ((matchesAt_congr hrgb.1 hrgb.2.1 hrgb.2.2).mpr hmm)
  refine ⟨?_, hI.changes, fun e he => hI.stack_ok e (List.mem_cons_of_mem _ he), ?_, ?_⟩
  · intro e he
    rcases Finset.mem_insert.mp he with rfl | he'
    · exact hg
    · exact hI.vis_grid e he'
  · intro e he hme
    rcases Finset.mem_insert.mp he with rfl | he'
    · exact absurd hme hm₀
    · obtain ⟨hz, hn⟩ := hI.vis_ok e he' hme
      refine ⟨hz, fun n hn' hgn => ?_⟩
      rcases hn n hn' hgn with hv | hs
      · exact Or.inl (Finset.mem_insert_of_mem hv)
      · rcases List.mem_cons.mp hs with rfl | hs'
        · exact Or.inl (Finset.mem_insert_self _ _)
        · exact Or.inr hs'
  · intro hgs
    rcases hI.seed_ok hgs with hv | hs
    · exact Or.inl (Finset.mem_insert_of_mem hv)
    · rcases List.mem_cons.mp hs with rfl | hs'
      · exact Or.inl (Finset.mem_insert_self _ _)
      · exact Or.inr hs'

lemma FloodInv.found {w h : ℕ} {target : ℤ × ℤ × ℤ} {tol : ℤ} {seed : ℤ × ℤ}
    {data₀ data : ℤ → ℤ → Pixel} {c : ℤ × ℤ} {rest : List (ℤ × ℤ)} {visited : Finset (ℤ × ℤ)}
    (hI : FloodInv w h target tol seed data₀ (c :: rest) visited data)
    (hnv : c ∉ visited) (hg : inGrid w h c) (hm : matchesAt target tol data c) :
    FloodInv w h target tol seed data₀
      ((c.1, c.2 - 1) :: (c.1, c.2 + 1) :: (c.1 - 1, c.2) :: (c.1 + 1, c.2) :: rest)
      (insert c visited) (updateAlpha data c) := by
  have hrgb := changes_rgb hI.changes c
  have hm₀ : matchesAt target tol data₀ c := (matchesAt_congr hrgb.1 hrgb.2.1 hrgb.2.2).mp hm
  have hR : Reach w h target tol data₀ seed c := by
    rcases hI.stack_ok c (List.mem_cons_self _ _) with rfl | ⟨d, hRd, hcd⟩
    · exact Reach.base hg hm₀
    · exact Reach.step d c hRd hcd hg hm₀
  have hdc : updateAlpha data c c.1 c.2 = zeroAlpha (data₀ c.1 c.2) := by
    unfold updateAlpha
    rw [if_pos ⟨rfl, rfl⟩]
    rcases hI.changes c with he | ⟨_, he⟩
    · rw [he]
    · rw [he]
      rfl
  have hother : ∀ e : ℤ × ℤ, e ≠ c → updateAlpha data c e.1 e.2 = data e.1 e.2 := by
    intro e hne
    unfold updateAlpha
    rw [if_neg]
    rintro ⟨h1, h2⟩
    exact hne (Prod.ext h1 h2)
  have hmemstack : ∀ n ∈ neighbors c,
      n ∈ ((c.1, c.2 - 1) :: (c.1, c.2 + 1) :: (c.1 - 1, c.2) :: (c.1 + 1, c.2) :: rest) := by
    intro n hn
    simp only [neighbors, List.mem_cons, List.mem_singleton, List.not_mem_nil, or_false] at hn
    rcases hn with rfl | rfl | rfl | rfl <;> simp [List.mem_cons]
  refine ⟨?_, ?_, ?_, ?_, ?_⟩
  · intro e he
    rcases Finset.mem_insert.mp he with rfl | he'
    · exact hg
    · exact hI.vis_grid e he'
  · intro e
    by_cases he : e = c
    · subst he
      exact Or.inr ⟨hR, hdc⟩
    · rw [hother e he]
      exact hI.changes e
  · intro e he
    simp only [List.mem_cons] at he
    rcases he with rfl | rfl | rfl | rfl | hs
    · exact Or.inr ⟨c, hR, by simp [neighbors]⟩
    · exact Or.inr ⟨c, hR, by simp [neighbors]⟩
    · exact Or.inr ⟨c, hR, by simp [neighbors]⟩
    · exact Or.inr ⟨c, hR, by simp [neighbors]⟩
    · exact hI.stack_ok e (List.mem_cons_of_mem _ hs)
  · intro e he hme
    rcases Finset.mem_insert.mp he with rfl | he'
    · exact ⟨hdc, fun n hn _ => Or.inr (hmemstack n hn)⟩
    · have hne : e ≠ c := fun hh => hnv (hh ▸ he')
      obtain ⟨hz, hn⟩ := hI.vis_ok e he' hme
      refine ⟨by rw [hother e hne]; exact hz, fun n hn' hgn => ?_⟩
      rcases hn n hn' hgn with hv | hs
      · exact Or.inl (Finset.mem_insert_of_mem hv)
      · rcases List.mem_cons.mp hs with rfl | hs'
        · exact Or.inl (Finset.mem_insert_self _ _)
        · exact Or.inr (by simp [List.mem_cons, hs'])
  · intro hgs
    rcases hI.seed_ok hgs with hv | hs
    · exact Or.inl (Finset.mem_insert_of_mem hv)
    · rcases List.mem_cons.mp hs with rfl | hs'
      · exact Or.inl (Finset.mem_insert_self _ _)
      · exact Or.inr (by simp [List.mem_cons, hs'])

lemma floodLoop_spec (w h : ℕ) (target : ℤ × ℤ × ℤ) (tol : ℤ) (seed : ℤ × ℤ)
    (data₀ : ℤ → ℤ → Pixel) :
    ∀ (fuel : ℕ) (stack : List (ℤ × ℤ)) (visited : Finset (ℤ × ℤ)) (data : ℤ → ℤ → Pixel),
      FloodInv w h target tol seed data₀ stack visited data →
      stack.length + 4 * (w * h - visited.card) ≤ fuel →
      FloodInv w h target tol seed data₀ []
        (floodLoop w h target tol fuel stack visited data).2
        (floodLoop w h target tol fuel stack visited data).1 := by
  intro fuel
  induction fuel with
  | zero =>
    intro stack visited data hI hm
    cases stack with
    | nil => simpa [floodLoop] using hI
    | cons c rest => simp at hm
  | succ n ih =>
    intro stack visited data hI hm
    cases stack with
    | nil => simpa [floodLoop] using hI
    | cons c rest =>
      have hcard : visited.card ≤ w * h := by
        rw [← card_gridFinset w h]
        exact Finset.card_le_card fun e he => mem_gridFinset.mpr (hI.vis_grid e he)
      by_cases h1 : c ∈ visited ∨ ¬ inGrid w h c
      · rw [floodLoop, if_pos h1]
        apply ih _ _ _ (hI.skip h1)
        simp only [List.length_cons] at hm
        omega
      · push_neg at h1
        obtain ⟨hnv, hg⟩ := h1
        have hcard' : (insert c visited).card = visited.card + 1 :=
          Finset.card_insert_of_not_mem hnv
        have hlt : visited.card + 1 ≤ w * h := by
          rw [← hcard', ← card_gridFinset w h]
          refine Finset.card_le_card fun e he => mem_gridFinset.mpr ?_
          rcases Finset.mem_insert.mp he with rfl | he'
          · exact hg
          · exact hI.vis_grid e he'
        by_cases h2 : matchesAt target tol data c
        · rw [floodLoop, if_neg (by push_neg; exact ⟨hnv, hg⟩), if_pos h2]
          apply ih _ _ _ (hI.found hnv hg h2)
          simp only [List.length_cons] at hm ⊢
          omega
        · rw [floodLoop, if_neg (by push_neg; exact ⟨hnv, hg⟩), if_neg h2]
          apply ih _ _ _ (hI.nomatch hg h2)
          simp only [List.length_cons] at hm
          omega

/-- Master characterization of floodFill: every pixel of the seed's reachable
region has its alpha cleared and its RGB kept; every other pixel is untouched
byte for byte. -/
lemma floodFill_master (img : Image) (startX startY : ℤ) (tolerance : ℤ) :
    let s := img.px startX startY
    let target := (s.r, s.g, s.b)
    (∀ c : ℤ × ℤ, Reach img.width img.height target tolerance img.px (startX, startY) c →
      (floodFill img startX startY tolerance).px c.1 c.2 = zeroAlpha (img.px c.1 c.2)) ∧
    (∀ c : ℤ × ℤ, ¬ Reach img.width img.height target tolerance img.px (startX, startY) c →
      (floodFill img startX startY tolerance).px c.1 c.2 = img.px c.1 c.2) := by
  intro s target
  have hinit : FloodInv img.width img.height target tolerance (startX, startY) img.px
      [(startX, startY)] ∅ img.px := by
    refine ⟨?_, ?_, ?_, ?_, ?_⟩
    · intro e he
      simp at he
    · intro c
      exact Or.inl rfl
    · intro e he
      rcases List.mem_cons.mp he with rfl | he'
      · exact Or.inl rfl
      · simp at he'
    · intro e he
      simp at he
    · intro _
      exact Or.inr (List.mem_cons_self _ _)
  have hfuel : ([(startX, startY)] : List (ℤ × ℤ)).length +
      4 * (img.width * img.height - (∅ : Finset (ℤ × ℤ)).card) ≤
        4 * img.width * img.height + 1 := by
    simp only [List.length_cons, List.length_nil, Finset.card_empty, Nat.sub_zero]
    have hassoc : 4 * img.width * img.height = 4 * (img.width * img.height) :=
      Nat.mul_assoc 4 _ _
    omega
  have hfin := floodLoop_spec img.width img.height target tolerance (startX, startY) img.px
    (4 * img.width * img.height + 1) [(startX, startY)] ∅ img.px hinit hfuel
  set r := floodLoop img.width img.height target tolerance
    (4 * img.width * img.height + 1) [(startX, startY)] ∅ img.px with hr
  have hpx : (floodFill img startX startY tolerance).px = r.1 := rfl
  constructor
  · intro c hre
    have hvis : ∀ e : ℤ × ℤ,
        Reach img.width img.height target tolerance img.px (startX, startY) e → e ∈ r.2 := by
      intro e hr'
      induction hr' with
      | base hg hm =>
        rcases hfin.seed_ok hg with hv | hs
        · exact hv
        · simp at hs
      | step cc d hrc hnb hgd hmd ihc =>
        have hmc : matchesAt target tolerance img.px cc := hrc.matched
        obtain ⟨_, hn⟩ := hfin.vis_ok cc ihc hmc
        rcases hn d hnb hgd with hv | hs
        · exact hv
        · simp at hs
    have hc : c ∈ r.2 := hvis c hre
    rw [hpx]
    exact (hfin.vis_ok c hc hre.matched).1
  · intro c hnr
    rw [hpx]
    rcases hfin.changes c with he | ⟨hre, _⟩
    · exact he
    · exact absurd hre hnr

/-- C1: for every pixel of the input buffer, the produced bitmap bit is 1
(foreground) if and only if the pixel's alpha is ≥ 128 and its luminance
0.299R + 0.587G + 0.114B is ≤ the threshold; otherwise the bit is 0, so in
particular every pixel with alpha < 128 is background regardless of its
color. -/
theorem createBitmap_binarization (img : Image) (threshold : ℚ) (x y : ℤ)
    (hin : inGrid img.width img.height (x, y)) :
    ((createBitmap img threshold).data x y = 1 ↔
      (128 ≤ (img.px x y).a ∧ luminance (img.px x y) ≤ threshold)) ∧
    ((img.px x y).a < 128 → (createBitmap img threshold).data x y = 0) := by
  unfold createBitmap
  dsimp only
  rw [if_pos hin]
  constructor
  · by_cases hc : (img.px x y).a < 128 ∨ luminance (img.px x y) > threshold
    · rw [if_pos hc]
      refine iff_of_false (by norm_num) ?_
      rintro ⟨ha, hl⟩
      rcases hc with hc | hc
      · omega
      · exact absurd hl (not_le.mpr hc)
    · rw [if_neg hc]
      push_neg at hc
      exact iff_of_true rfl ⟨hc.1, hc.2⟩
  · intro ha
    rw [if_pos (Or.inl ha)]

/-- Witness for C1 at a concrete input: the opaque black pixel of `blackImg`
is classified as foreground at the default threshold. -/
theorem createBitmap_binarization_witness :
    (createBitmap blackImg 128).data 0 0 = 1 :=
  (createBitmap_binarization blackImg 128 0 0 (by decide)).1.mpr
    ⟨by decide, by norm_num [luminance, blackImg]⟩

/-- C2: for every pixel buffer, in-bounds seed coordinate, and tolerance, the
flood fill sets alpha to 0 (keeping RGB) for every pixel of the 4-connected
region of pixels within tolerance of the seed's color that contains the seed
(`Reach`), and leaves every byte of every pixel outside that region
unchanged. -/
theorem floodFill_uniform_region (img : Image) (startX startY tolerance : ℤ)
    (hin : inGrid img.width img.height (startX, startY)) :
    (∀ c : ℤ × ℤ, Reach img.width img.height
        ((img.px startX startY).r, (img.px startX startY).g, (img.px startX startY).b)
        tolerance img.px (startX, startY) c →
      (floodFill img startX startY tolerance).px c.1 c.2 = zeroAlpha (img.px c.1 c.2)) ∧
    (∀ c : ℤ × ℤ, ¬ Reach img.width img.height
        ((img.px startX startY).r, (img.px startX startY).g, (img.px startX startY).b)
        tolerance img.px (startX, startY) c →
      (floodFill img startX startY tolerance).px c.1 c.2 = img.px c.1 c.2) :=
  floodFill_master img startX startY tolerance

/-- Witness for C2 at a concrete input: flooding the uniform 2×1 gray buffer
from (0, 0) with tolerance 0 clears the alpha of the connected pixel (1, 0). -/
theorem floodFill_uniform_region_witness :
    (floodFill grayImg 0 0 0).px 1 0 = zeroAlpha (grayImg.px 1 0) := by
  have h := floodFill_uniform_region grayImg 0 0 0 (by decide)
  have hseed : Reach grayImg.width grayImg.height
      ((grayImg.px 0 0).r, (grayImg.px 0 0).g, (grayImg.px 0 0).b) 0 grayImg.px (0, 0) (0, 0) :=
    Reach.base (by decide) (by decide)
  have hstep : Reach grayImg.width grayImg.height
      ((grayImg.px 0 0).r, (grayImg.px 0 0).g, (grayImg.px 0 0).b) 0 grayImg.px (0, 0) (1, 0) :=
    Reach.step _ _ hseed (by decide) (by decide) (by decide)
  exact h.1 (1, 0) hstep

/-- C10 (implicit): every single-image background-removal operation writes only
the alpha byte — for every pixel of the buffer, the red, green and blue bytes
after the call equal their values before the call. -/
theorem removal_alpha_only (img : Image) (targetColor : ℤ × ℤ × ℤ) (tolerance : ℤ)
    (targetHue hueTolerance saturationMin : ℚ) (startX startY : ℤ) (x y : ℤ) :
    (((removeByColor img targetColor tolerance).px x y).r = (img.px x y).r ∧
      ((removeByColor img targetColor tolerance).px x y).g = (img.px x y).g ∧
      ((removeByColor img targetColor tolerance).px x y).b = (img.px x y).b) ∧
    (((chromaKey img targetHue hueTolerance saturationMin).px x y).r = (img.px x y).r ∧
      ((chromaKey img targetHue hueTolerance saturationMin).px x y).g = (img.px x y).g ∧
      ((chromaKey img targetHue hueTolerance saturationMin).px x y).b = (img.px x y).b) ∧
    (((fuzzyRemoval img targetColor tolerance).px x y).r = (img.px x y).r ∧
      ((fuzzyRemoval img targetColor tolerance).px x y).g = (img.px x y).g ∧
      ((fuzzyRemoval img targetColor tolerance).px x y).b = (img.px x y).b) ∧
    (((floodFill img startX startY tolerance).px x y).r = (img.px x y).r ∧
      ((floodFill img startX startY tolerance).px x y).g = (img.px x y).g ∧
      ((floodFill img startX startY tolerance).px x y).b = (img.px x y).b) ∧
    (((edgePreserving img targetColor tolerance).px x y).r = (img.px x y).r ∧
      ((edgePreserving img targetColor tolerance).px x y).g = (img.px x y).g ∧
      ((edgePreserving img targetColor tolerance).px x y).b = (img.px x y).b) := by
  refine ⟨?_, ?_, ?_, ?_, ?_⟩
  · unfold removeByColor
    dsimp only
    split_ifs <;> exact ⟨rfl, rfl, rfl⟩
  · unfold chromaKey
    dsimp only
    split_ifs <;> exact ⟨rfl, rfl, rfl⟩
  · unfold fuzzyRemoval
    dsimp only
    split_ifs <;> exact ⟨rfl, rfl, rfl⟩
  · by_cases hre : Reach img.width img.height
        ((img.px startX startY).r, (img.px startX startY).g, (img.px startX startY).b)
        tolerance img.px (startX, startY) (x, y)
    · rw [(floodFill_master img startX startY tolerance).1 (x, y) hre]
      exact ⟨rfl, rfl, rfl⟩
    · rw [(floodFill_master img startX startY tolerance).2 (x, y) hre]
      exact ⟨rfl, rfl, rfl⟩
  · unfold edgePreserving
    dsimp only
    split_ifs <;> exact ⟨rfl, rfl, rfl⟩

/-- C3 (amended): chromaKey sets a pixel's alpha to 0 precisely when the plain
absolute difference `|hue*360 − targetHue|` (no circular wrap-around) is below
the hue tolerance and the saturation exceeds the minimum; all other pixels are
left unchanged. -/
theorem chromaKey_hue_window (img : Image) (targetHue hueTolerance saturationMin : ℚ)
    (x y : ℤ) (hin : inGrid img.width img.height (x, y)) :
    ((|(rgbToHsl (((img.px x y).r : ℚ) / 255) (((img.px x y).g : ℚ) / 255)
          (((img.px x y).b : ℚ) / 255)).h * 360 - targetHue| < hueTolerance ∧
        (rgbToHsl (((img.px x y).r : ℚ) / 255) (((img.px x y).g : ℚ) / 255)
          (((img.px x y).b : ℚ) / 255)).s > saturationMin) →
      (chromaKey img targetHue hueTolerance saturationMin).px x y = zeroAlpha (img.px x y)) ∧
    (¬ (|(rgbToHsl (((img.px x y).r : ℚ) / 255) (((img.px x y).g : ℚ) / 255)
          (((img.px x y).b : ℚ) / 255)).h * 360 - targetHue| < hueTolerance ∧
        (rgbToHsl (((img.px x y).r : ℚ) / 255) (((img.px x y).g : ℚ) / 255)
          (((img.px x y).b : ℚ) / 255)).s > saturationMin) →
      (chromaKey img targetHue hueTolerance saturationMin).px x y = img.px x y) := by
  unfold chromaKey
  dsimp only
  constructor
  · intro hc
    rw [if_pos ⟨hin, hc.1, hc.2⟩]
  · intro hc
    rw [if_neg]
    rintro ⟨_, ha, hb⟩
    exact hc ⟨ha, hb⟩

/-- Witness for C3 (amended) at a concrete input: the pure-green pixel (hue
exactly 120°, saturation 1) is made transparent by the default green-screen
parameters. -/
theorem chromaKey_hue_window_witness :
    (chromaKey greenImg 120 15 (3 / 10)).px 0 0 = zeroAlpha (greenImg.px 0 0) :=
  (chromaKey_hue_window greenImg 120 15 (3 / 10) 0 0 (by decide)).1
    (by norm_num [greenImg, rgbToHsl])

/-- Counterexample to C3 as stated: the near-red pixel of `redWrapImg` has hue
6096/17 ≈ 358.6°, whose circular distance to the target hue 0 is 24/17 ≈ 1.4°
(within the 15° window) with saturation 1 > 0.3, yet chromaKey leaves its
alpha at 200 because the code compares the plain absolute difference
358.6 ≥ 15. -/
theorem chromaKey_circular_counterexample :
    specCircularHueDist ((rgbToHsl (((redWrapImg.px 0 0).r : ℚ) / 255)
        (((redWrapImg.px 0 0).g : ℚ) / 255) (((redWrapImg.px 0 0).b : ℚ) / 255)).h * 360) 0
      < 15 ∧
    (rgbToHsl (((redWrapImg.px 0 0).r : ℚ) / 255) (((redWrapImg.px 0 0).g : ℚ) / 255)
        (((redWrapImg.px 0 0).b : ℚ) / 255)).s > 3 / 10 ∧
    ((chromaKey redWrapImg 0 15 (3 / 10)).px 0 0).a = 200 := by
  have habs : |(6096 : ℚ) / 17| = 6096 / 17 := abs_of_nonneg (by norm_num)
  refine ⟨?_, by norm_num [redWrapImg, rgbToHsl], ?_⟩
  · norm_num [specCircularHueDist, redWrapImg, rgbToHsl]
    right
    rw [habs]
    norm_num
  · show ((chromaKey redWrapImg 0 15 (3 / 10)).px 0 0).a = 200
    unfold chromaKey
    dsimp only
    rw [if_neg]
    · rfl
    · rintro ⟨_, ha, _⟩
      rw [show redWrapImg.px 0 0 = ⟨255, 0, 6, 200⟩ from rfl] at ha
      norm_num [rgbToHsl] at ha
      rw [habs] at ha
      norm_num at ha

lemma jsClampByte_bound {x : ℝ} (h0 : 0 ≤ x) (h255 : x ≤ 255) :
    |((jsClampByte x : ℤ) : ℝ) - x| ≤ 1 / 2 := by
  have hsum : ((⌊x⌋ : ℤ) : ℝ) + Int.fract x = x := Int.floor_add_fract x
  have hf0 : (0 : ℝ) ≤ Int.fract x := Int.fract_nonneg x
  have hf1 : Int.fract x < 1 := Int.fract_lt_one x
  unfold jsClampByte
  split_ifs with h1 h2 h3 h4 h5
  · have hx : x = 0 := le_antisymm h1 h0
    rw [hx]
    norm_num
  · have hx : x = 255 := le_antisymm h255 h2
    rw [hx]
    norm_num
  · rw [abs_le]
    constructor <;> linarith
  · rw [abs_le]
    push_cast
    constructor <;> linarith
  · have htie : Int.fract x = 1 / 2 := le_antisymm (not_lt.mp h4) (not_lt.mp h3)
    rw [abs_le]
    constructor <;> linarith
  · have htie : Int.fract x = 1 / 2 := le_antisymm (not_lt.mp h4) (not_lt.mp h3)
    rw [abs_le]
    push_cast
    constructor <;> linarith

lemma jsClampByte_range (x : ℝ) : 0 ≤ jsClampByte x ∧ jsClampByte x ≤ 255 := by
  unfold jsClampByte
  split_ifs with h1 h2 h3 h4 h5
  · exact ⟨le_refl 0, by norm_num⟩
  · exact ⟨by norm_num, le_refl 255⟩
  all_goals
    push_neg at h1 h2
    have hfl0 : 0 ≤ ⌊x⌋ := Int.floor_nonneg.mpr (le_of_lt h1)
    have hfl255 : ⌊x⌋ < 255 := Int.floor_lt.mpr (by exact_mod_cast h2)
    omega

lemma jsClampByte_mono {x y : ℝ} (h0 : 0 ≤ x) (hxy : x ≤ y) (h255 : y ≤ 255) :
    jsClampByte x ≤ jsClampByte y := by
  by_contra hlt
  push_neg at hlt
  have h1 : jsClampByte y + 1 ≤ jsClampByte x := hlt
  have hbx := jsClampByte_bound h0 (le_trans hxy h255)
  have hby := jsClampByte_bound (le_trans h0 hxy) h255
  rw [abs_le] at hbx hby
  have hcast : ((jsClampByte y : ℤ) : ℝ) + 1 ≤ ((jsClampByte x : ℤ) : ℝ) := by
    exact_mod_cast h1
  have hyx : y ≤ x := by linarith [hbx.1, hbx.2, hby.1, hby.2]
  have hxe : x = y := le_antisymm hxy hyx
  rw [hxe] at hlt
  exact lt_irrefl _ hlt

lemma dist2_nonneg (p : Pixel) (t : ℤ × ℤ × ℤ) : 0 ≤ dist2 p t := by
  unfold dist2
  positivity

lemma fuzzyRemoval_rgb (img : Image) (targetColor : ℤ × ℤ × ℤ) (tolerance : ℤ) (x y : ℤ) :
    ((fuzzyRemoval img targetColor tolerance).px x y).r = (img.px x y).r ∧
    ((fuzzyRemoval img targetColor tolerance).px x y).g = (img.px x y).g ∧
    ((fuzzyRemoval img targetColor tolerance).px x y).b = (img.px x y).b := by
  unfold fuzzyRemoval
  dsimp only
  split_ifs <;> exact ⟨rfl, rfl, rfl⟩

/-- C4: for every pixel, if the Euclidean RGB distance to the target color is
≥ tolerance the pixel is left unchanged; if the distance is < tolerance the
alpha is set to the graduated value `(distance/tolerance)*255` (stored through
the clamped-byte rounding, hence within 1/2 of the exact value and inside
[0, 255]), and the stored alpha is monotone in the distance, so pixels closer
to the target fade out more. -/
theorem fuzzyRemoval_boundary (img : Image) (targetColor : ℤ × ℤ × ℤ) (tolerance : ℤ)
    (x y : ℤ) (hin : inGrid img.width img.height (x, y)) :
    ((tolerance ≤ 0 ∨ tolerance ^ 2 ≤ dist2 (img.px x y) targetColor) →
      (fuzzyRemoval img targetColor tolerance).px x y = img.px x y) ∧
    ((0 < tolerance ∧ dist2 (img.px x y) targetColor < tolerance ^ 2) →
      (((fuzzyRemoval img targetColor tolerance).px x y).r = (img.px x y).r ∧
        ((fuzzyRemoval img targetColor tolerance).px x y).g = (img.px x y).g ∧
        ((fuzzyRemoval img targetColor tolerance).px x y).b = (img.px x y).b) ∧
      ((fuzzyRemoval img targetColor tolerance).px x y).a =
        jsClampByte (Real.sqrt ((dist2 (img.px x y) targetColor : ℤ) : ℝ) /
          ((tolerance : ℤ) : ℝ) * 255) ∧
      (0 ≤ ((fuzzyRemoval img targetColor tolerance).px x y).a ∧
        ((fuzzyRemoval img targetColor tolerance).px x y).a ≤ 255) ∧
      |(((fuzzyRemoval img targetColor tolerance).px x y).a : ℝ) -
        Real.sqrt ((dist2 (img.px x y) targetColor : ℤ) : ℝ) /
          ((tolerance : ℤ) : ℝ) * 255| ≤ 1 / 2) ∧
    (∀ x₂ y₂ : ℤ, inGrid img.width img.height (x₂, y₂) → 0 < tolerance →
      dist2 (img.px x y) targetColor ≤ dist2 (img.px x₂ y₂) targetColor →
      dist2 (img.px x₂ y₂) targetColor < tolerance ^ 2 →
      ((fuzzyRemoval img targetColor tolerance).px x y).a ≤
        ((fuzzyRemoval img targetColor tolerance).px x₂ y₂).a) := by
  have hval : ∀ (x' y' : ℤ), inGrid img.width img.height (x', y') →
      0 < tolerance → dist2 (img.px x' y') targetColor < tolerance ^ 2 →
      ((fuzzyRemoval img targetColor tolerance).px x' y').a =
        jsClampByte (Real.sqrt ((dist2 (img.px x' y') targetColor : ℤ) : ℝ) /
          ((tolerance : ℤ) : ℝ) * 255) ∧
      0 ≤ Real.sqrt ((dist2 (img.px x' y') targetColor : ℤ) : ℝ) /
          ((tolerance : ℤ) : ℝ) * 255 ∧
      Real.sqrt ((dist2 (img.px x' y') targetColor : ℤ) : ℝ) /
          ((tolerance : ℤ) : ℝ) * 255 < 255 := by
    intro x' y' hin' htol hlt
    have htolR : (0 : ℝ) < ((tolerance : ℤ) : ℝ) := by exact_mod_cast htol
    have hslt : Real.sqrt ((dist2 (img.px x' y') targetColor : ℤ) : ℝ) <
        ((tolerance : ℤ) : ℝ) := by
      rw [Real.sqrt_lt' htolR]
      exact_mod_cast hlt
    have hs0 : (0 : ℝ) ≤ Real.sqrt ((dist2 (img.px x' y') targetColor : ℤ) : ℝ) :=
      Real.sqrt_nonneg _
    have hv0 : (0 : ℝ) ≤ Real.sqrt ((dist2 (img.px x' y') targetColor : ℤ) : ℝ) /
        ((tolerance : ℤ) : ℝ) * 255 := by positivity
    have hv255 : Real.sqrt ((dist2 (img.px x' y') targetColor : ℤ) : ℝ) /
        ((tolerance : ℤ) : ℝ) * 255 < 255 := by
      have hdiv : Real.sqrt ((dist2 (img.px x' y') targetColor : ℤ) : ℝ) /
          ((tolerance : ℤ) : ℝ) < 1 := (div_lt_one htolR).mpr hslt
      nlinarith
    refine ⟨?_, hv0, hv255⟩
    show (if inGrid img.width img.height (x', y') ∧
        Real.sqrt ((dist2 (img.px x' y') targetColor : ℤ) : ℝ) < ((tolerance : ℤ) : ℝ) then
        { img.px x' y' with a := jsClampByte (max 0
          (Real.sqrt ((dist2 (img.px x' y') targetColor : ℤ) : ℝ) /
            ((tolerance : ℤ) : ℝ) * 255)) }
      else img.px x' y').a = _
    rw [if_pos ⟨hin', hslt⟩]
    rw [max_eq_right hv0]
  refine ⟨?_, ?_, ?_⟩
  · intro hc
    show (if inGrid img.width img.height (x, y) ∧
        Real.sqrt ((dist2 (img.px x y) targetColor : ℤ) : ℝ) < ((tolerance : ℤ) : ℝ) then
        { img.px x y with a := jsClampByte (max 0
          (Real.sqrt ((dist2 (img.px x y) targetColor : ℤ) : ℝ) /
            ((tolerance : ℤ) : ℝ) * 255)) }
      else img.px x y) = img.px x y
    rw [if_neg]
    rintro ⟨-, hslt⟩
    rcases hc with hc | hc
    · have : ((tolerance : ℤ) : ℝ) ≤ 0 := by exact_mod_cast hc
      exact absurd hslt (not_lt.mpr (le_trans this (Real.sqrt_nonneg _)))
    · have hcast : (((tolerance ^ 2 : ℤ) : ℝ)) ≤ ((dist2 (img.px x y) targetColor : ℤ) : ℝ) := by
        exact_mod_cast hc
      have hge : ((tolerance : ℤ) : ℝ) ≤
          Real.sqrt ((dist2 (img.px x y) targetColor : ℤ) : ℝ) := by
        calc ((tolerance : ℤ) : ℝ) ≤ |((tolerance : ℤ) : ℝ)| := le_abs_self _
        _ = Real.sqrt (((tolerance : ℤ) : ℝ) ^ 2) := (Real.sqrt_sq_eq_abs _).symm
        _ ≤ Real.sqrt ((dist2 (img.px x y) targetColor : ℤ) : ℝ) := by
            apply Real.sqrt_le_sqrt
            push_cast at hcast ⊢
            linarith
      exact absurd hslt (not_lt.mpr hge)
  · rintro ⟨htol, hlt⟩
    obtain ⟨ha, hv0, hv255⟩ := hval x y hin htol hlt
    refine ⟨?_, ha, ?_, ?_⟩
    · exact fuzzyRemoval_rgb img targetColor tolerance x y
    · rw [ha]
      exact jsClampByte_range _
    · rw [ha]
      exact jsClampByte_bound hv0 (le_of_lt hv255)
  · intro x₂ y₂ hin₂ htol hle hlt₂
    have hlt₁ : dist2 (img.px x y) targetColor < tolerance ^ 2 := lt_of_le_of_lt hle hlt₂
    obtain ⟨ha₁, hv₁0, hv₁255⟩ := hval x y hin htol hlt₁
    obtain ⟨ha₂, hv₂0, hv₂255⟩ := hval x₂ y₂ hin₂ htol hlt₂
    rw [ha₁, ha₂]
    apply jsClampByte_mono hv₁0 _ (le_of_lt hv₂255)
    have htolR : (0 : ℝ) < ((tolerance : ℤ) : ℝ) := by exact_mod_cast htol
    have hsle : Real.sqrt ((dist2 (img.px x y) targetColor : ℤ) : ℝ) ≤
        Real.sqrt ((dist2 (img.px x₂ y₂) targetColor : ℤ) : ℝ) := by
      apply Real.sqrt_le_sqrt
      exact_mod_cast hle
    have hdivle : Real.sqrt ((dist2 (img.px x y) targetColor : ℤ) : ℝ) /
        ((tolerance : ℤ) : ℝ) ≤
        Real.sqrt ((dist2 (img.px x₂ y₂) targetColor : ℤ) : ℝ) / ((tolerance : ℤ) : ℝ) :=
      (div_le_div_iff_of_pos_right htolR).mpr hsle
    exact mul_le_mul_of_nonneg_right hdivle (by norm_num)

/-- Witness for C4 at a concrete input: the near-white pixel at squared
distance 75 < 10² from pure white receives the graduated alpha. -/
theorem fuzzyRemoval_boundary_witness :
    0 < (10 : ℤ) ∧ dist2 (nearWhiteImg.px 0 0) (255, 255, 255) < 10 ^ 2 ∧
    ((fuzzyRemoval nearWhiteImg (255, 255, 255) 10).px 0 0).a =
      jsClampByte (Real.sqrt ((dist2 (nearWhiteImg.px 0 0) (255, 255, 255) : ℤ) : ℝ) /
        (((10 : ℤ) : ℤ) : ℝ) * 255) := by
  refine ⟨by decide, by decide, ?_⟩
  exact ((fuzzyRemoval_boundary nearWhiteImg (255, 255, 255) 10 0 0 (by decide)).2.1
    ⟨by decide, by decide⟩).2.1

/-- C5 (amended): pass 2 of edge-preserving removal sets the alpha of every
interior background candidate to `floor(255 * neighborCount / 8)` when fewer
than 8 of its neighbors are candidates — so a candidate with FEWER candidate
neighbors retains LESS opacity (becomes more transparent) than one with
more — candidates with all 8 neighbors candidates become fully transparent,
and border pixels (row/col 0 or max) are skipped. -/
theorem edgePreserving_neighbor_scaling (img : Image) (targetColor : ℤ × ℤ × ℤ)
    (tolerance : ℤ) :
    (∀ x y : ℤ, 1 ≤ x → x < (img.width : ℤ) - 1 → 1 ≤ y → y < (img.height : ℤ) - 1 →
      isCandidate img targetColor tolerance (x, y) →
      (neighborCount img targetColor tolerance x y < 8 →
        ((edgePreserving img targetColor tolerance).px x y).a =
          ((255 * neighborCount img targetColor tolerance x y / 8 : ℕ) : ℤ)) ∧
      (neighborCount img targetColor tolerance x y = 8 →
        ((edgePreserving img targetColor tolerance).px x y).a = 0)) ∧
    (∀ x y : ℤ, ¬ (1 ≤ x ∧ x < (img.width : ℤ) - 1 ∧ 1 ≤ y ∧ y < (img.height : ℤ) - 1) →
      (edgePreserving img targetColor tolerance).px x y = img.px x y) ∧
    (∀ x₁ y₁ x₂ y₂ : ℤ,
      (1 ≤ x₁ ∧ x₁ < (img.width : ℤ) - 1 ∧ 1 ≤ y₁ ∧ y₁ < (img.height : ℤ) - 1) →
      isCandidate img targetColor tolerance (x₁, y₁) →
      (1 ≤ x₂ ∧ x₂ < (img.width : ℤ) - 1 ∧ 1 ≤ y₂ ∧ y₂ < (img.height : ℤ) - 1) →
      isCandidate img targetColor tolerance (x₂, y₂) →
      neighborCount img targetColor tolerance x₁ y₁ ≤
        neighborCount img targetColor tolerance x₂ y₂ →
      neighborCount img targetColor tolerance x₂ y₂ < 8 →
      ((edgePreserving img targetColor tolerance).px x₁ y₁).a ≤
        ((edgePreserving img targetColor tolerance).px x₂ y₂).a) := by
  have hint : ∀ x y : ℤ, 1 ≤ x → x < (img.width : ℤ) - 1 → 1 ≤ y → y < (img.height : ℤ) - 1 →
      isCandidate img targetColor tolerance (x, y) →
      (neighborCount img targetColor tolerance x y < 8 →
        ((edgePreserving img targetColor tolerance).px x y).a =
          ((255 * neighborCount img targetColor tolerance x y / 8 : ℕ) : ℤ)) ∧
      (neighborCount img targetColor tolerance x y = 8 →
        ((edgePreserving img targetColor tolerance).px x y).a = 0) := by
    intro x y h1 h2 h3 h4 hc
    unfold edgePreserving
    dsimp only
    rw [if_pos ⟨h1, h2, h3, h4, hc⟩]
    constructor
    · intro hn
      rw [if_pos hn]
    · intro hn
      rw [if_neg (by omega)]
  refine ⟨hint, ?_, ?_⟩
  · intro x y hni
    unfold edgePreserving
    dsimp only
    rw [if_neg]
    rintro ⟨hh1, hh2, hh3, hh4, -⟩
    exact hni ⟨hh1, hh2, hh3, hh4⟩
  · intro x₁ y₁ x₂ y₂ hi₁ hc₁ hi₂ hc₂ hle hlt₂
    have hlt₁ : neighborCount img targetColor tolerance x₁ y₁ < 8 := lt_of_le_of_lt hle hlt₂
    rw [(hint x₁ y₁ hi₁.1 hi₁.2.1 hi₁.2.2.1 hi₁.2.2.2 hc₁).1 hlt₁,
      (hint x₂ y₂ hi₂.1 hi₂.2.1 hi₂.2.2.1 hi₂.2.2.2 hc₂).1 hlt₂]
    have : 255 * neighborCount img targetColor tolerance x₁ y₁ / 8 ≤
        255 * neighborCount img targetColor tolerance x₂ y₂ / 8 :=
      Nat.div_le_div_right (Nat.mul_le_mul_left 255 hle)
    exact_mod_cast this

/-- Witness for C5 (amended) at a concrete input: the candidate (4, 1) of
`edgeCaseImg` has 7 candidate neighbors and receives alpha
floor(255*7/8) = 223. -/
theorem edgePreserving_neighbor_scaling_witness :
    ((edgePreserving edgeCaseImg (0, 0, 0) 1).px 4 1).a =
      ((255 * neighborCount edgeCaseImg (0, 0, 0) 1 4 1 / 8 : ℕ) : ℤ) :=
  ((edgePreserving_neighbor_scaling edgeCaseImg (0, 0, 0) 1).1 4 1 (by decide) (by decide)
    (by decide) (by decide) (by decide)).1 (by decide)

/-- Counterexample to C5 as stated: in `edgeCaseImg` the isolated candidate
(1, 1) has 0 candidate neighbors and ends fully transparent (alpha 0), while
the candidate (4, 1) with 7 candidate neighbors keeps alpha 223 — so a
candidate with fewer background-candidate neighbors retains LESS opacity, not
more as the claim states. -/
theorem edgePreserving_direction_counterexample :
    isCandidate edgeCaseImg (0, 0, 0) 1 (1, 1) ∧
    isCandidate edgeCaseImg (0, 0, 0) 1 (4, 1) ∧
    neighborCount edgeCaseImg (0, 0, 0) 1 1 1 = 0 ∧
    neighborCount edgeCaseImg (0, 0, 0) 1 4 1 = 7 ∧
    ((edgePreserving edgeCaseImg (0, 0, 0) 1).px 1 1).a = 0 ∧
    ((edgePreserving edgeCaseImg (0, 0, 0) 1).px 4 1).a = 223 ∧
    ¬ (((edgePreserving edgeCaseImg (0, 0, 0) 1).px 4 1).a ≤
        ((edgePreserving edgeCaseImg (0, 0, 0) 1).px 1 1).a) := by
  decide

lemma batch_getD (items : List (Option Image)) (method : String) (options : ROptions)
    {i : ℕ} (hi : i < items.length) :
    (batchRemoval items method options).getD i emptyBatchResult =
      batchItem method options (items.getD i none) := by
  unfold batchRemoval
  rw [List.getD_eq_getElem?_getD, List.getElem?_map, List.getElem?_eq_getElem hi,
    List.getD_eq_getElem?_getD, List.getElem?_eq_getElem hi]
  rfl

lemma batchItem_success (method : String) (options : ROptions) (item : Option Image) :
    ((batchItem method options item).success = true) ↔
      (knownMethod method ∧ item.isSome = true) := by
  unfold batchItem
  split
  · cases item <;> simp [okItem, failItem, knownMethod, knownMethodList]
  · cases item <;> simp [okItem, failItem, knownMethod, knownMethodList]
  · cases item <;> simp [okItem, failItem, knownMethod, knownMethodList]
  · cases item <;> simp [okItem, failItem, knownMethod, knownMethodList]
  · cases item <;> simp [okItem, failItem, knownMethod, knownMethodList]
  · rename_i h1 h2 h3 h4 h5
    simp [failItem, knownMethod, knownMethodList]
    rintro (h | h | h | h | h) <;> simp_all

/-- C8: batch removal over an ordered list of N buffers returns exactly N
per-item results in input order; the result at each position depends only on
that position's item (so one item's failure cannot abort the batch or affect
any other item's result), and an item succeeds exactly when the method name is
known and the canvas lookup succeeds. -/
theorem batchRemoval_isolation (items items' : List (Option Image)) (method : String)
    (options : ROptions) (i : ℕ) :
    (batchRemoval items method options).length = items.length ∧
    (i < items.length → i < items'.length → items.getD i none = items'.getD i none →
      (batchRemoval items method options).getD i emptyBatchResult =
        (batchRemoval items' method options).getD i emptyBatchResult) ∧
    (i < items.length →
      (((batchRemoval items method options).getD i emptyBatchResult).success = true ↔
        (knownMethod method ∧ (items.getD i none).isSome = true))) := by
  refine ⟨List.length_map _ _, ?_, ?_⟩
  · intro hi hi' heq
    rw [batch_getD items method options hi, batch_getD items' method options hi', heq]
  · intro hi
    rw [batch_getD items method options hi]
    exact batchItem_success method options _

/-- Witness for C8 at a concrete input: a two-item batch with a failing second
canvas lookup still yields two results, and the second is reported as a
failure exactly per the characterization. -/
theorem batchRemoval_isolation_witness :
    (batchRemoval demoItems "color" {}).length = demoItems.length ∧
    (((batchRemoval demoItems "color" {}).getD 1 emptyBatchResult).success = true ↔
      (knownMethod "color" ∧ (demoItems.getD 1 none).isSome = true)) :=
  ⟨(batchRemoval_isolation demoItems demoItems "color" {} 1).1,
    (batchRemoval_isolation demoItems demoItems "color" {} 1).2.2 (by norm_num [demoItems])⟩

lemma traceGo_length_le (bmp : Bitmap) (sx sy : ℤ) :
    ∀ (fuel : ℕ) (x y : ℤ) (dir : ℕ) (path : List Pt) (visited : Finset ℤ),
      (traceGo bmp sx sy fuel x y dir path visited).1.length ≤
        max (path.length + 1) (bmp.width * bmp.height + 1) := by
  intro fuel
  induction fuel with
  | zero =>
    intro x y dir path visited
    simp only [traceGo]
    omega
  | succ n ih =>
    intro x y dir path visited
    simp only [traceGo]
    cases hfd : findNext bmp x y dir with
    | none =>
      simp only [hfd, List.length_append, List.length_cons, List.length_nil]
      omega
    | some v =>
      obtain ⟨nx, ny, ndir⟩ := v
      simp only [hfd]
      set v' := (if 0 ≤ y * (bmp.width : ℤ) + x ∧
          y * (bmp.width : ℤ) + x < ((bmp.width * bmp.height : ℕ) : ℤ) then
        insert (y * (bmp.width : ℤ) + x) visited else visited) with hv'
      split_ifs with hlen hstart
      · simp only [List.length_append, List.length_cons, List.length_nil]
        omega
      · simp only [List.length_append, List.length_cons, List.length_nil]
        omega
      · have hrec := ih nx ny ndir (path ++ [⟨(x : ℚ), (y : ℚ), false⟩]) v'
        simp only [List.length_append, List.length_cons, List.length_nil] at hrec hlen ⊢
        omega

lemma traceGo_fuel_stable (bmp : Bitmap) (sx sy : ℤ) :
    ∀ (f₁ f₂ : ℕ) (x y : ℤ) (dir : ℕ) (path : List Pt) (visited : Finset ℤ),
      max 1 (bmp.width * bmp.height + 2 - path.length) ≤ f₁ →
      max 1 (bmp.width * bmp.height + 2 - path.length) ≤ f₂ →
      traceGo bmp sx sy f₁ x y dir path visited = traceGo bmp sx sy f₂ x y dir path visited := by
  intro f₁
  induction f₁ with
  | zero =>
    intro f₂ x y dir path visited h1 h2
    exact absurd (le_trans (le_max_left _ _) h1) (by norm_num)
  | succ n ih =>
    intro f₂ x y dir path visited h1 h2
    cases f₂ with
    | zero => exact absurd (le_trans (le_max_left _ _) h2) (by norm_num)
    | succ m =>
      simp only [traceGo]
      cases hfd : findNext bmp x y dir with
      | none => simp only [hfd]
      | some v =>
        obtain ⟨nx, ny, ndir⟩ := v
        simp only [hfd]
        set v' := (if 0 ≤ y * (bmp.width : ℤ) + x ∧
            y * (bmp.width : ℤ) + x < ((bmp.width * bmp.height : ℕ) : ℤ) then
          insert (y * (bmp.width : ℤ) + x) visited else visited) with hv'
        split_ifs with hlen hstart
        · rfl
        · rfl
        · apply ih
          · simp only [List.length_append, List.length_cons, List.length_nil] at hlen ⊢
            omega
          · simp only [List.length_append, List.length_cons, List.length_nil] at hlen ⊢
            omega

/-- C9: for every bitmap and start pixel the boundary trace terminates: with
the supplied cycle-safety fuel the walk is insensitive to any larger bound
(so it has genuinely stopped — by returning to the start, finding no
foreground neighbor, or hitting the `width*height` step cap), and the traced
path always has at most `width*height + 1` points, both as the raw walk and
as the contour reported by traceContour. -/
theorem traceContour_terminates (bmp : Bitmap) (startX startY : ℤ) (visited : Finset ℤ)
    (fuel₁ fuel₂ : ℕ)
    (h₁ : bmp.width * bmp.height + 2 ≤ fuel₁) (h₂ : bmp.width * bmp.height + 2 ≤ fuel₂) :
    (traceGo bmp startX startY fuel₁ startX startY 0 [] visited =
      traceGo bmp startX startY fuel₂ startX startY 0 [] visited) ∧
    (traceGo bmp startX startY fuel₁ startX startY 0 [] visited).1.length ≤
      bmp.width * bmp.height + 1 ∧
    (∀ p : List Pt, (traceContour bmp startX startY visited).1 = some p →
      p.length ≤ bmp.width * bmp.height + 1) := by
  refine ⟨?_, ?_, ?_⟩
  · apply traceGo_fuel_stable <;> simp <;> omega
  · have hb := traceGo_length_le bmp startX startY fuel₁ startX startY 0 [] visited
    simp only [List.length_nil] at hb
    omega
  · intro p hp
    unfold traceContour at hp
    dsimp only at hp
    split_ifs at hp with hlen
    have hb := traceGo_length_le bmp startX startY (bmp.width * bmp.height + 2)
      startX startY 0 [] visited
    simp only [List.length_nil] at hb
    have hpe : p = (traceGo bmp startX startY (bmp.width * bmp.height + 2)
        startX startY 0 [] visited).1 := (Option.some_inj.mp hp).symm
    rw [hpe]
    omega

/-- Witness for C9 at a concrete input: on the 1×1 empty bitmap the trace from
(0, 0) is stable between fuels 3 and 4 and stays within 2 points. -/
theorem traceContour_terminates_witness :
    (traceGo emptyBitmap 0 0 3 0 0 0 [] ∅ = traceGo emptyBitmap 0 0 4 0 0 0 [] ∅) ∧
    (traceGo emptyBitmap 0 0 3 0 0 0 [] ∅).1.length ≤ emptyBitmap.width * emptyBitmap.height + 1 := by
  have h := traceContour_terminates emptyBitmap 0 0 ∅ 3 4 (by decide) (by decide)
  exact ⟨h.1, h.2.1⟩

lemma smoothPath_length (oc : Bool) (ot : ℝ) (p : List Pt) :
    (smoothPath oc ot p).length = p.length := by
  unfold smoothPath
  split_ifs <;> simp

lemma length_filter_mono {α : Type} (l : List α) (p q : α → Bool)
    (h : ∀ a, p a = true → q a = true) :
    (l.filter p).length ≤ (l.filter q).length := by
  induction l with
  | nil => simp
  | cons a t ih =>
    by_cases hpa : p a = true
    · rw [List.filter_cons_of_pos hpa, List.filter_cons_of_pos (h a hpa)]
      simpa using ih
    · rw [List.filter_cons_of_neg (by simpa using hpa)]
      by_cases hqa : q a = true
      · rw [List.filter_cons_of_pos hqa]
        exact le_trans ih (by simp)
      · rw [List.filter_cons_of_neg (by simpa using hqa)]
        exact ih

lemma tracePathsGo_filter (bmp : Bitmap) (t : ℤ) (oc : Bool) (ot : ℝ) :
    ∀ (coords : List (ℤ × ℤ)) (visited : Finset ℤ),
      tracePathsGo bmp t oc ot coords visited =
        (tracePathsGo bmp 0 oc ot coords visited).filter
          (fun p => decide (t ≤ (p.length : ℤ))) := by
  intro coords
  induction coords with
  | nil =>
    intro visited
    simp [tracePathsGo]
  | cons c rest ih =>
    intro visited
    obtain ⟨x, y⟩ := c
    simp only [tracePathsGo]
    by_cases hc : bmp.data x y = 1 ∧ (y * (bmp.width : ℤ) + x) ∉ visited
    · rw [if_pos hc, if_pos hc]
      cases htr : traceContour bmp x y visited with
      | mk pOpt visited' =>
        cases pOpt with
        | none => exact ih visited'
        | some path =>
          dsimp only
          have hge0 : (path.length : ℤ) ≥ 0 := Int.natCast_nonneg _
          rw [if_pos hge0]
          have hsl : ((smoothPath oc ot path).length : ℤ) = (path.length : ℤ) := by
            rw [smoothPath_length]
          rw [List.filter_cons]
          by_cases hl : (path.length : ℤ) ≥ t
          · rw [if_pos hl, if_pos (by simp only [decide_eq_true_eq, hsl]; exact hl)]
            rw [ih visited']
          · rw [if_neg hl, if_neg (by simp only [decide_eq_true_eq, hsl]; exact hl)]
            exact ih visited'
    · rw [if_neg hc, if_neg hc]
      exact ih visited

/-- C6: a traced contour appears in the tracePaths output exactly when its
point count is at least turdsize — the output for any turdsize equals the
full (turdsize 0) output filtered by point count, positions and smoothing
unchanged — and consequently the number of output contours is monotonically
non-increasing as turdsize increases. -/
theorem tracePaths_turdsize_filter (bmp : Bitmap) (w h : ℕ) (optcurve : Bool)
    (opttolerance : ℝ) (turdsize t₁ t₂ : ℤ) :
    (tracePaths bmp w h turdsize optcurve opttolerance =
      (tracePaths bmp w h 0 optcurve opttolerance).filter
        (fun p => decide (turdsize ≤ (p.length : ℤ)))) ∧
    (t₁ ≤ t₂ →
      (tracePaths bmp w h t₂ optcurve opttolerance).length ≤
        (tracePaths bmp w h t₁ optcurve opttolerance).length) := by
  constructor
  · exact tracePathsGo_filter bmp turdsize optcurve opttolerance (scanCoords w h) ∅
  · intro hle
    unfold tracePaths
    rw [tracePathsGo_filter bmp t₂ optcurve opttolerance (scanCoords w h) ∅,
      tracePathsGo_filter bmp t₁ optcurve opttolerance (scanCoords w h) ∅]
    apply length_filter_mono
    intro p hp
    simp only [decide_eq_true_eq] at hp ⊢
    omega

/-- Witness for C6 at a concrete input: on the 1×1 empty bitmap, raising
turdsize from 1 to 2 cannot increase the number of output contours. -/
theorem tracePaths_turdsize_filter_witness :
    (tracePaths emptyBitmap 1 1 2 true 1).length ≤
      (tracePaths emptyBitmap 1 1 1 true 1).length :=
  (tracePaths_turdsize_filter emptyBitmap 1 1 true 1 5 1 2).2 (by decide)

lemma scaledPaths_hom (P : List (List Pt)) (k : ℚ) :
    ((P.filter fun p => decide (2 ≤ p.length)).map fun p =>
        p.map fun q => (q.x * k, q.y * k)) =
      ((P.filter fun p => decide (2 ≤ p.length)).map fun p =>
        p.map fun q => (q.x * 1, q.y * 1)).map (List.map fun q => (k * q.1, k * q.2)) := by
  rw [List.map_map]
  apply List.map_congr_left
  intro p _
  rw [Function.comp_apply, List.map_map]
  apply List.map_congr_left
  intro q _
  rw [Function.comp_apply]
  simp only [Prod.mk.injEq]
  constructor <;> ring

/-- C7 (amended): for every input buffer, options and NONZERO scale factor k,
the vectorization run at scale k reports width, height and viewBox dimensions
exactly k times those of the scale-1 run, scales every emitted path coordinate
by exactly k (in both the SVG document and the bare path data), and keeps all
other content (fill color, number and order of paths) identical. -/
theorem vectorize_scale_homomorphism (img : Image) (o : VOptions) (k : ℚ) (hk : k ≠ 0) :
    ((vectorizeCanvas img { o with scale := k }).width =
      k * (vectorizeCanvas img { o with scale := 1 }).width) ∧
    ((vectorizeCanvas img { o with scale := k }).height =
      k * (vectorizeCanvas img { o with scale := 1 }).height) ∧
    ((vectorizeCanvas img { o with scale := k }).viewBoxWidth =
      k * (vectorizeCanvas img { o with scale := 1 }).viewBoxWidth) ∧
    ((vectorizeCanvas img { o with scale := k }).viewBoxHeight =
      k * (vectorizeCanvas img { o with scale := 1 }).viewBoxHeight) ∧
    ((vectorizeCanvas img { o with scale := k }).paths =
      (vectorizeCanvas img { o with scale := 1 }).paths.map
        (List.map fun q => (k * q.1, k * q.2))) ∧
    ((vectorizeCanvas img { o with scale := k }).fill =
      (vectorizeCanvas img { o with scale := 1 }).fill) ∧
    ((vectorizeCanvas img { o with scale := k }).paths.length =
      (vectorizeCanvas img { o with scale := 1 }).paths.length) ∧
    (generatePathData img { o with scale := k } =
      (generatePathData img { o with scale := 1 }).map
        (List.map fun q => (k * q.1, k * q.2))) := by
  have hscl : ∀ s : ℚ, ({ o with scale := s } : VOptions).scale = s := fun _ => rfl
  have hk' : (if k = 0 then 1 else k) = k := if_neg hk
  have h1' : (if (1 : ℚ) = 0 then 1 else (1 : ℚ)) = 1 := if_neg one_ne_zero
  have hA : ∀ s : ℚ, vectorizeCanvas img { o with scale := s } =
      generateSVG (tracePaths (createBitmap img
          (if o.threshold = 0 then 128 else o.threshold)) img.width img.height
        o.turdsize o.optcurve o.opttolerance) img.width img.height { o with scale := s } :=
    fun _ => rfl
  have hB : ∀ s : ℚ, generatePathData img { o with scale := s } =
      ((tracePaths (createBitmap img (if o.threshold = 0 then 128 else o.threshold))
          img.width img.height o.turdsize o.optcurve o.opttolerance).filter
        fun p => decide (2 ≤ p.length)).map fun p =>
          p.map fun q => (q.x * (if s = 0 then 1 else s), q.y * (if s = 0 then 1 else s)) :=
    fun _ => rfl
  rw [hA k, hA 1, hB k, hB 1]
  unfold generateSVG
  dsimp only
  rw [hk', h1']
  refine ⟨by ring, by ring, by ring, by ring, scaledPaths_hom _ k, rfl, by simp, ?_⟩
  exact scaledPaths_hom _ k

/-- Witness for C7 (amended) at a concrete input: scaling the 1×1 black image
by 2 doubles the reported width relative to the scale-1 run. -/
theorem vectorize_scale_homomorphism_witness :
    (2 : ℚ) ≠ 0 ∧
    (vectorizeCanvas blackImg { ({} : VOptions) with scale := 2 }).width =
      2 * (vectorizeCanvas blackImg { ({} : VOptions) with scale := 1 }).width :=
  ⟨by norm_num, (vectorize_scale_homomorphism blackImg {} 2 (by norm_num)).1⟩

/-- Counterexample to C7 as stated: at scale factor k = 0 the code's
`options.scale || 1` falls back to 1, so the reported width of the k = 0 run
on a 1×1 image is 1, not 0 = 0 × (width of the scale-1 run) as the claim
demands for every k. -/
theorem vectorize_scale_zero_counterexample :
    (vectorizeCanvas blackImg { scale := 0 }).width ≠
      0 * (vectorizeCanvas blackImg { scale := 1 }).width := by
  have h1 : (vectorizeCanvas blackImg { scale := 0 }).width = 1 := by
    show (blackImg.width : ℚ) * (if (0 : ℚ) = 0 then 1 else 0) = 1
    norm_num [blackImg]
  rw [h1]
  norm_num

end Convec
